import Mathlib

/-!
Shallow embedding of the B.L.I.N.K habit tracker (src/BLINK.py): the storage
accessor over the two SQLite tables (habits, logs) and the two analytics
functions (weekly_counts, calc_streaks), together with proofs of the
specification claims.

Time points (the ISO-8601 UTC strings produced by datetime.utcnow()) are
embedded as integers counting seconds; taking the UTC calendar date of a
time point (pandas .normalize() / datetime.date()) is floor division by
86400, which on Int is `/` (Euclidean division) because the divisor is
positive. Daily-series index labels additionally carry the
timezone-awareness of their pandas dtype (see Stamp): the grouped entry
counts in weekly_counts are keyed tz-naive while its window index is
tz-aware, so the reindex at src/BLINK.py:134 matches nothing and
zero-fills the whole window.
-/

namespace BLINK

/-- Row of the habits table: id PK AUTOINCREMENT, name, category, target,
color, created_at (src/BLINK.py:77-85). -/
structure HabitRow where
  id : Nat
  name : String
  category : String
  target : Int
  color : String
  created_at : Int
deriving DecidableEq

/-- Row of the logs table: id PK AUTOINCREMENT, habit_id, ts, note
(src/BLINK.py:88-96). -/
structure LogRow where
  id : Nat
  habit_id : Nat
  ts : Int
  note : Option String
deriving DecidableEq

/-- State of the SQLite database: the two tables plus the AUTOINCREMENT
counters (SQLite assigns ids 1, 2, 3, ... in insertion order). -/
structure DB where
  habits : List HabitRow
  habitsNextId : Nat
  logs : List LogRow
  logsNextId : Nat
deriving DecidableEq

/-- Embeds add_habit (src/BLINK.py:105-109): INSERT INTO habits with
created_at = datetime.utcnow(). The returned Nat models the AUTOINCREMENT
rowid assigned to the new row. -/
def add_habit (now : Int) (name category : String) (target : Int) (color : String)
    (db : DB) : DB × Nat :=
  (⟨db.habits ++ [⟨db.habitsNextId, name, category, target, color, now⟩],
    db.habitsNextId + 1, db.logs, db.logsNextId⟩, db.habitsNextId)

/-- Ordering used by get_habits: ORDER BY id DESC. -/
def habitGE (a b : HabitRow) : Prop := b.id ≤ a.id

instance : DecidableRel habitGE := fun _ _ => Nat.decLe _ _

instance : IsTotal HabitRow habitGE := ⟨fun a b => Nat.le_total b.id a.id⟩

instance : IsTrans HabitRow habitGE := ⟨fun _ _ _ h1 h2 => Nat.le_trans h2 h1⟩

/-- Embeds get_habits (src/BLINK.py:111-112): SELECT * FROM habits ORDER BY
id DESC. -/
def get_habits (db : DB) : List HabitRow :=
  db.habits.insertionSort habitGE

/-- Embeds add_log (src/BLINK.py:114-119): ts defaults to datetime.utcnow()
when omitted; no existence check is performed on habit_id. The returned Nat
models the AUTOINCREMENT rowid of the new row. -/
def add_log (now : Int) (habit_id : Nat) (ts : Option Int) (note : Option String)
    (db : DB) : DB × Nat :=
  (⟨db.habits, db.habitsNextId,
    db.logs ++ [⟨db.logsNextId, habit_id, ts.getD now, note⟩], db.logsNextId + 1⟩,
   db.logsNextId)

/-- Row of the get_logs result set: l.id, l.habit_id, l.ts, l.note, h.name
as habit_name; habit_name is NULL when the LEFT JOIN finds no habit. -/
structure LogJoinRow where
  id : Nat
  habit_id : Nat
  ts : Int
  note : Option String
  habit_name : Option String
deriving DecidableEq

/-- LEFT JOIN of one log row against the habits table (ON h.id = l.habit_id). -/
def joinLog (db : DB) (l : LogRow) : LogJoinRow :=
  ⟨l.id, l.habit_id, l.ts, l.note,
   (db.habits.find? (fun hr => hr.id == l.habit_id)).map (fun hr => hr.name)⟩

/-- Ordering used by get_logs: ORDER BY ts DESC. -/
def logGE (a b : LogJoinRow) : Prop := b.ts ≤ a.ts

instance : DecidableRel logGE := fun _ _ => Int.decLe _ _

instance : IsTotal LogJoinRow logGE := ⟨fun a b => Int.le_total b.ts a.ts⟩

instance : IsTrans LogJoinRow logGE := ⟨fun _ _ _ h1 h2 => Int.le_trans h2 h1⟩

/-- Embeds get_logs (src/BLINK.py:121-122): SELECT l.id, l.habit_id, l.ts,
l.note, h.name as habit_name FROM logs l LEFT JOIN habits h ON h.id=l.habit_id
ORDER BY ts DESC. -/
def get_logs (db : DB) : List LogJoinRow :=
  (db.logs.map (joinLog db)).insertionSort logGE

/-- Embeds Python str.strip(): remove leading and trailing whitespace from
the string. -/
def pyStrip (s : String) : String :=
  ⟨((s.data.dropWhile Char.isWhitespace).reverse.dropWhile Char.isWhitespace).reverse⟩

/-- Embeds the form_habit submission handler (src/BLINK.py:213-219): an
empty-after-strip name is rejected with the inline error message and nothing
is inserted; otherwise the stripped name and category are passed to
add_habit. -/
def form_habit_submit (now : Int) (name category : String) (target : Int)
    (color : String) (db : DB) : DB × Except String Nat :=
  if pyStrip name = "" then (db, Except.error "Nome obrigatório")
  else
    let p := add_habit now (pyStrip name) (pyStrip category) target color db
    (p.1, Except.ok p.2)

/-- Seconds per calendar day. -/
def secsPerDay : Int := 86400

/-- UTC calendar date (as a day number) of a time point: time-of-day is
discarded by flooring, as pandas .normalize() and datetime.date() do. -/
def dateOf (ts : Int) : Int := ts / secsPerDay

/-- Index label of a pandas daily series: a calendar day plus the
timezone-awareness of its dtype. pd.to_datetime over the stored naive ISO
strings yields tz-naive labels; pd.Timestamp.utcnow() and the date_range
built from it yield tz-aware (UTC) labels. reindex matches labels by
equality, and a tz-naive label never equals a tz-aware one (the dtypes
datetime64[ns] and datetime64[ns, UTC] are non-comparable, every indexer
entry is a miss). -/
structure Stamp where
  aware : Bool
  day : Int
deriving DecidableEq

/-- Embeds `df.set_index('ts').groupby(pd.Grouper(freq='D')).size()`
(src/BLINK.py:134) over the tz-naive entry timestamps: one pair per
distinct naive entry date with the number of entries on it. (The Grouper
also emits empty bins between the min and max date; they are omitted here
because a zero-count naive label can never be matched by the tz-aware
reindex below any more than the others.) -/
def groupSizes (df_logs : List LogRow) : List (Stamp × Nat) :=
  ((df_logs.map (fun r => dateOf r.ts)).dedup).map
    (fun d => ((⟨false, d⟩ : Stamp), (df_logs.filter (fun r => dateOf r.ts == d)).length))

/-- Embeds weekly_counts (src/BLINK.py:126-136): empty input gives an empty
series; otherwise the window index is the days+1 consecutive tz-aware
calendar days starting at the normalization of (now - days), and reindex
looks each tz-aware window label up among the tz-naive grouped labels,
filling 0 on a miss. Because the stored timestamps are naive and the window
is aware, every lookup misses, so the program renders every window day with
count 0. -/
def weekly_counts (now : Int) (df_logs : List LogRow) (days : Nat) : List (Stamp × Nat) :=
  if df_logs.isEmpty then []
  else
    let start := dateOf (now - days * secsPerDay)
    (List.range (days + 1)).map (fun i : Nat =>
      ((⟨true, start + (i : Int)⟩ : Stamp),
       (((groupSizes df_logs).find?
           (fun g => g.1 == (⟨true, start + (i : Int)⟩ : Stamp))).map Prod.snd).getD 0))

/-- Embeds the habit filter of calc_streaks (src/BLINK.py:143-144): the
Python guard `if habit_id:` filters only when habit_id is given and nonzero
(None and 0 are falsy). -/
def filterHabit (df_logs : List LogRow) (habit_id : Option Nat) : List LogRow :=
  match habit_id with
  | some h => if h ≠ 0 then df_logs.filter (fun r => r.habit_id == h) else df_logs
  | none => df_logs

/-- Embeds `days = sorted(set([d.date() for d in df.ts]))`
(src/BLINK.py:145): the sorted list of distinct UTC calendar dates. -/
def distinctDates (df : List LogRow) : List Int :=
  ((df.map (fun r => dateOf r.ts)).dedup).insertionSort (· ≤ ·)

/-- Fuel-indexed unrolling of the backward while loop of calc_streaks
(src/BLINK.py:157-162): `while d in dset: cur_streak += 1; d -= 1`. -/
def backCountAux (days : List Int) : Nat → Int → Nat
  | 0, _ => 0
  | fuel + 1, d => if d ∈ days then backCountAux days fuel (d - 1) + 1 else 0

/-- Number of iterations of the backward while loop started at d. Because
the distinct dates visited by the loop all lie in `days`, the loop body runs
at most `days.length` times when `days` has no duplicates, so that much fuel
computes the exact loop count. -/
def backCount (days : List Int) (d : Int) : Nat :=
  backCountAux days days.length d

/-- One iteration of the forward walk of calc_streaks (src/BLINK.py:148-154):
state is (streak, best, prev); streak increments when prev is None or d is
exactly prev + 1 day, else resets to 1; best takes the running maximum. -/
def streakStep (st : Nat × Nat × Option Int) (d : Int) : Nat × Nat × Option Int :=
  let streak :=
    match st.2.2 with
    | none => st.1 + 1
    | some p => if d = p + 1 then st.1 + 1 else 1
  (streak, max st.2.1 streak, some d)

/-- Best streak produced by the forward walk over the sorted distinct dates. -/
def bestStreak (days : List Int) : Nat :=
  (days.foldl streakStep (0, 0, none)).2.1

/-- Embeds calc_streaks (src/BLINK.py:138-163): (current, best). The local
variable `today = datetime.utcnow().date()` in the source is dead code — the
computation never reads the clock, so the embedding takes no `now` input. -/
def calc_streaks (df_logs : List LogRow) (habit_id : Option Nat) : Nat × Nat :=
  if df_logs.isEmpty then (0, 0)
  else
    let days := distinctDates (filterHabit df_logs habit_id)
    match days.max? with
    | none => (0, 0)
    | some m => (backCount days m, bestStreak days)

/-- Well-formedness of the habits table maintained by SQLite AUTOINCREMENT:
every existing rowid is smaller than the next id to be assigned. -/
def habitsWF (db : DB) : Prop := ∀ hr ∈ db.habits, hr.id < db.habitsNextId

/-- Freshly initialized database: both tables empty, AUTOINCREMENT counters
at 1. -/
def emptyDB : DB := ⟨[], 1, [], 1⟩

/-- Logs on the three days Jan 1, Jan 2 and Jan 4 (as day numbers 0, 1, 3),
the worked example of the spec. -/
def exampleLogs : List LogRow :=
  [⟨1, 1, 0, none⟩, ⟨2, 1, 86400, none⟩, ⟨3, 1, 3 * 86400, none⟩]

/-- Logs for one habit on three consecutive days (day numbers 0, 1, 2). -/
def consecLogs : List LogRow :=
  [⟨1, 1, 0, none⟩, ⟨2, 1, 86400, none⟩, ⟨3, 1, 172800, none⟩]

/-! Theorems. -/

/-- Normalizing `now - days` days shifts the calendar date by `days`. -/
theorem dateOf_sub_days (now : Int) (days : Nat) :
    dateOf (now - days * secsPerDay) = dateOf now - days := by
  unfold dateOf secsPerDay
  have h : now - (days : Int) * 86400 = now + (-(days : Int)) * 86400 := by ring
  rw [h, Int.add_mul_ediv_right _ _ (by norm_num)]
  ring

/-- Fuel bound: the loop unrolling never counts more than its fuel. -/
theorem backCountAux_le (days : List Int) : ∀ fuel d, backCountAux days fuel d ≤ fuel := by
  intro fuel
  induction fuel with
  | zero => intro d; simp [backCountAux]
  | succ n ih =>
    intro d
    by_cases hd : d ∈ days
    · rw [backCountAux, if_pos hd]
      exact Nat.succ_le_succ (ih (d - 1))
    · rw [backCountAux, if_neg hd]
      omega

/-- Every day the backward loop stepped through is present: the i-th
decrement visited day d - i. -/
theorem backCountAux_mem (days : List Int) :
    ∀ fuel d i, i < backCountAux days fuel d → d - (i : Int) ∈ days := by
  intro fuel
  induction fuel with
  | zero => intro d i h; simp [backCountAux] at h
  | succ n ih =>
    intro d i h
    by_cases hd : d ∈ days
    · rw [backCountAux, if_pos hd] at h
      cases i with
      | zero => simpa using hd
      | succ j =>
        have hj : j < backCountAux days n (d - 1) := by omega
        have hrec := ih (d - 1) j hj
        have heq : d - ((j + 1 : Nat) : Int) = (d - 1) - (j : Int) := by push_cast; ring
        rw [heq]
        exact hrec
    · rw [backCountAux, if_neg hd] at h
      omega

/-- When the backward loop stops before exhausting its fuel, the day just
past the counted run is absent. -/
theorem backCountAux_stop (days : List Int) :
    ∀ fuel d, backCountAux days fuel d < fuel →
      d - (backCountAux days fuel d : Int) ∉ days := by
  intro fuel
  induction fuel with
  | zero => intro d h; omega
  | succ n ih =>
    intro d h
    by_cases hd : d ∈ days
    · rw [backCountAux, if_pos hd] at h ⊢
      have h2 : backCountAux days n (d - 1) < n := by omega
      have hrec := ih (d - 1) h2
      have heq : d - ((backCountAux days n (d - 1) + 1 : Nat) : Int)
          = (d - 1) - (backCountAux days n (d - 1) : Int) := by push_cast; ring
      rw [heq]
      exact hrec
    · rw [backCountAux, if_neg hd]
      simpa using hd

/-- Specification of the backward loop count on a duplicate-free date list:
every day it stepped through is present and the day just past the run is
absent, so backCount is the length of the consecutive run ending at d. -/
theorem backCount_spec (days : List Int) (d : Int) :
    (∀ i, i < backCount days d → d - (i : Int) ∈ days) ∧
    d - (backCount days d : Int) ∉ days := by
  refine ⟨fun i hi => backCountAux_mem days days.length d i hi, ?_⟩
  rcases Nat.lt_or_ge (backCount days d) days.length with hlt | hge
  · exact backCountAux_stop days days.length d hlt
  · have hle : backCount days d ≤ days.length := backCountAux_le days days.length d
    have hL : backCount days d = days.length := le_antisymm hle hge
    have hL2 : backCountAux days days.length d = days.length := hL
    intro hmem
    have hsub : ((List.range (days.length + 1)).map (fun i : Nat => d - (i : Int))) ⊆ days := by
      intro x hx
      obtain ⟨i, hi, rfl⟩ := List.mem_map.mp hx
      have hi2 : i < days.length + 1 := List.mem_range.mp hi
      rcases Nat.lt_or_ge i days.length with h1 | h1
      · exact backCountAux_mem days days.length d i (by omega)
      · have hiL : i = days.length := by omega
        subst hiL
        rw [hL] at hmem
        exact hmem
    have hndl : ((List.range (days.length + 1)).map (fun i : Nat => d - (i : Int))).Nodup := by
      refine List.Nodup.map ?_ (List.nodup_range _)
      intro a b hab
      simp only at hab
      omega
    have hlen := (hndl.subperm hsub).length_le
    rw [List.length_map, List.length_range] at hlen
    omega

/-- Two run lengths that both step through present days and both end at an
absent day agree: the first gap going backward from d is unique. -/
theorem firstGap_unique (days : List Int) (d : Int) (k1 k2 : Nat)
    (h1 : ∀ i, i < k1 → d - (i : Int) ∈ days) (h2 : d - (k1 : Int) ∉ days)
    (h3 : ∀ i, i < k2 → d - (i : Int) ∈ days) (h4 : d - (k2 : Int) ∉ days) : k1 = k2 := by
  rcases Nat.lt_trichotomy k1 k2 with h | h | h
  · exact absurd (h3 k1 h) h2
  · exact h
  · exact absurd (h1 k2 h) h4

/-- The backward loop runs at least once when its start day is present. -/
theorem backCount_pos (days : List Int) (d : Int) (hd : d ∈ days) :
    1 ≤ backCount days d := by
  have hlen : 0 < days.length := List.length_pos.mpr (List.ne_nil_of_mem hd)
  obtain ⟨n, hn⟩ : ∃ n, days.length = n + 1 := ⟨days.length - 1, by omega⟩
  rw [backCount, hn, backCountAux, if_pos hd]
  omega

/-- Behaviour of the forward walk on a strictly sorted list with last
element m: the final prev is m, the final running streak is the length of
the consecutive run ending at m, and best dominates it. -/
theorem fold_run : ∀ (l0 : List Int) (m : Int), ((l0 ++ [m]).Sorted (· < ·)) →
    ∃ s b, (l0 ++ [m]).foldl streakStep (0, 0, none) = (s, b, some m) ∧
      1 ≤ s ∧ s ≤ b ∧
      (∀ i : Nat, i < s → m - (i : Int) ∈ l0 ++ [m]) ∧
      m - (s : Int) ∉ l0 ++ [m] := by
  intro l0
  induction l0 using List.reverseRecOn with
  | nil =>
    intro m _
    refine ⟨1, 1, by simp [streakStep], le_refl 1, le_refl 1, ?_, ?_⟩
    · intro i hi
      have hi0 : i = 0 := by omega
      subst hi0
      simp
    · intro hmem
      rcases List.mem_append.mp hmem with h | h
      · simp at h
      · rw [List.mem_singleton] at h
        omega
  | append_singleton l1 p ih =>
    intro m hsort
    obtain ⟨hsort1, -, hlt⟩ := List.pairwise_append.mp hsort
    obtain ⟨s, b, hfold, hs1, hsb, hmem, hgap⟩ := ih p hsort1
    have hpm : p < m := hlt p (by simp) m (by simp)
    have hub : ∀ x ∈ l1 ++ [p], x ≤ p := by
      intro x hx
      obtain ⟨-, -, hl1p⟩ := List.pairwise_append.mp hsort1
      rcases List.mem_append.mp hx with h | h
      · exact le_of_lt (hl1p x h p (by simp))
      · simp at h
        omega
    rw [List.foldl_append, hfold]
    simp only [List.foldl_cons, List.foldl_nil]
    by_cases hcase : m = p + 1
    · refine ⟨s + 1, max b (s + 1), by simp [streakStep, hcase], by omega,
        le_max_right _ _, ?_, ?_⟩
      · intro i hi
        cases i with
        | zero => simp
        | succ j =>
          have hj : j < s := by omega
          have heq : m - ((j + 1 : Nat) : Int) = p - (j : Int) := by push_cast; omega
          rw [heq]
          exact List.mem_append_left _ (hmem j hj)
      · intro hx
        have heq : m - ((s + 1 : Nat) : Int) = p - (s : Int) := by push_cast; omega
        rw [heq] at hx
        rcases List.mem_append.mp hx with h | h
        · exact hgap h
        · simp at h
          omega
    · refine ⟨1, max b 1, by simp [streakStep, hcase], le_refl 1, le_max_right _ _, ?_, ?_⟩
      · intro i hi
        have hi0 : i = 0 := by omega
        subst hi0
        simp
      · intro hx
        rcases List.mem_append.mp hx with h | h
        · have := hub _ h
          push_cast at this
          omega
        · rw [List.mem_singleton] at h
          omega

/-- Characterization of List.max? on integers. -/
theorem int_max_eq_some_iff {l : List Int} {m : Int} :
    l.max? = some m ↔ m ∈ l ∧ ∀ b ∈ l, b ≤ m := by
  haveI : Std.Antisymm (fun a b : Int => a ≤ b) := ⟨fun h h2 => le_antisymm h h2⟩
  exact List.max?_eq_some_iff (fun a => le_refl a) (fun a b => max_choice a b)
    (fun a b c => max_le_iff)

/-- In a strictly sorted list the maximum is the last element. -/
theorem sorted_max_decomp {l : List Int} {m : Int} (hs : l.Sorted (· < ·))
    (hm : l.max? = some m) : ∃ l0, l = l0 ++ [m] := by
  obtain ⟨hmem, hub⟩ := int_max_eq_some_iff.mp hm
  have hne : l ≠ [] := List.ne_nil_of_mem hmem
  have hdec : l.dropLast ++ [l.getLast hne] = l := List.dropLast_append_getLast hne
  have hgmem : l.getLast hne ∈ l := List.getLast_mem hne
  have h1 : l.getLast hne ≤ m := hub _ hgmem
  have h2 : m ≤ l.getLast hne := by
    rw [← hdec] at hmem
    rcases List.mem_append.mp hmem with h | h
    · have hpw : (l.dropLast ++ [l.getLast hne]).Pairwise (· < ·) := by
        rw [hdec]; exact hs
      rw [List.pairwise_append] at hpw
      exact le_of_lt (hpw.2.2 m h _ (by simp))
    · simp at h
      omega
  refine ⟨l.dropLast, ?_⟩
  rw [le_antisymm h2 h1]
  exact hdec.symm

/-- distinctDates has no duplicate dates. -/
theorem distinctDates_nodup (df : List LogRow) : (distinctDates df).Nodup :=
  ((List.perm_insertionSort _ _).nodup_iff).mpr (List.nodup_dedup _)

/-- distinctDates is strictly sorted ascending. -/
theorem distinctDates_sorted_lt (df : List LogRow) :
    (distinctDates df).Sorted (· < ·) := by
  have hsort : (distinctDates df).Sorted (· ≤ ·) := List.sorted_insertionSort _ _
  exact hsort.lt_of_le (distinctDates_nodup df)

/-- The running streak and the best are bounded by the number of days
consumed by the walk. -/
theorem streak_le : ∀ (l : List Int) (s b : Nat) (p : Option Int),
    (l.foldl streakStep (s, b, p)).1 ≤ s + l.length ∧
    (l.foldl streakStep (s, b, p)).2.1 ≤ max b (s + l.length) := by
  intro l
  induction l with
  | nil =>
    intro s b p
    constructor <;> simp
  | cons d t ih =>
    intro s b p
    rw [List.foldl_cons]
    have hstep : ∃ s2, streakStep (s, b, p) d = (s2, max b s2, some d) ∧ s2 ≤ s + 1 := by
      cases p with
      | none => exact ⟨s + 1, rfl, le_refl _⟩
      | some q =>
        by_cases hq : d = q + 1
        · exact ⟨s + 1, by simp [streakStep, hq], le_refl _⟩
        · exact ⟨1, by simp [streakStep, hq], by omega⟩
    obtain ⟨s2, heq, hs2⟩ := hstep
    rw [heq]
    obtain ⟨ih1, ih2⟩ := ih s2 (max b s2) (some d)
    constructor
    · refine le_trans ih1 ?_
      simp only [List.length_cons]
      omega
    · refine le_trans ih2 ?_
      simp only [List.length_cons]
      omega

/-- Best streak is at most the number of distinct days. -/
theorem bestStreak_le (l : List Int) : bestStreak l ≤ l.length := by
  have h := (streak_le l 0 0 none).2
  simpa [bestStreak] using h

/-- Unfolding of calc_streaks on a non-empty collection whose filtered date
list has a maximum. -/
theorem calc_streaks_eq {df : List LogRow} {habit_id : Option Nat} {m : Int}
    (hne : df ≠ []) (hmax : (distinctDates (filterHabit df habit_id)).max? = some m) :
    calc_streaks df habit_id =
      (backCount (distinctDates (filterHabit df habit_id)) m,
       bestStreak (distinctDates (filterHabit df habit_id))) := by
  have hemp : df.isEmpty = false := by simpa [List.isEmpty_iff] using hne
  simp [calc_streaks, hemp, hmax]

/-- Zero-fill behaviour of weekly_counts on any non-empty collection: the
tz-naive grouped labels never match the tz-aware window labels, so reindex
fills every one of the days+1 window days with 0. -/
theorem weekly_counts_zero : ∀ now (df : List LogRow) days, df ≠ [] →
    weekly_counts now df days =
      (List.range (days + 1)).map (fun k : Nat =>
        ((⟨true, dateOf now - days + (k : Int)⟩ : Stamp), 0)) := by
  intro now df days hne
  have hemp : df.isEmpty = false := by simpa [List.isEmpty_iff] using hne
  simp only [weekly_counts, hemp, Bool.false_eq_true, if_false, dateOf_sub_days]
  apply List.map_congr_left
  intro i hi
  have hfind : (groupSizes df).find?
      (fun g => g.1 == ((⟨true, dateOf now - days + (i : Int)⟩ : Stamp))) = none := by
    rw [List.find?_eq_none]
    intro x hx
    obtain ⟨d, hd, rfl⟩ := List.mem_map.mp hx
    simp
  rw [hfind]
  rfl

/-- Claim C2 (code bug): the empty-collection half is true of the program
(empty series, no zero-filled window), but the count-1 half is not: a
single entry logged today with window 0 yields the one-element series for
today with count 0, because the tz-naive grouped count for today is never
matched by the tz-aware window label of the reindex. -/
theorem claim_C2 :
    (∀ now days, weekly_counts now [] days = []) ∧
    (∀ now (r : LogRow),
      weekly_counts now [r] 0 = [((⟨true, dateOf now⟩ : Stamp), 0)]) := by
  constructor
  · intro now days
    simp [weekly_counts]
  · intro now r
    have h := weekly_counts_zero now [r] 0 (by simp)
    rw [h]
    simp [List.range_succ]

/-- Claim C3: creating a habit whose name is empty or whitespace-only after
trimming fails with the validation error and leaves the database unchanged
(no row inserted); both the empty name and a blank name fail this way. -/
theorem claim_C3 :
    (∀ now name category target color (db : DB), pyStrip name = "" →
      form_habit_submit now name category target color db =
        (db, Except.error "Nome obrigatório")) ∧
    (∀ now category target color (db : DB),
      form_habit_submit now "" category target color db =
        (db, Except.error "Nome obrigatório")) ∧
    (∀ now category target color (db : DB),
      form_habit_submit now "   " category target color db =
        (db, Except.error "Nome obrigatório")) := by
  refine ⟨fun now name category target color db h => by simp [form_habit_submit, h], ?_, ?_⟩
  · intro now category target color db
    have h : pyStrip "" = "" := by decide
    simp [form_habit_submit, h]
  · intro now category target color db
    have h : pyStrip "   " = "" := by decide
    simp [form_habit_submit, h]

/-- Witness for C3 at a concrete input: the whitespace-only name. -/
theorem claim_C3_witness :
    pyStrip "   " = "" ∧
    form_habit_submit 0 "   " "cat" 1 "#7c3aed" emptyDB =
      (emptyDB, Except.error "Nome obrigatório") :=
  ⟨by decide, claim_C3.1 0 "   " "cat" 1 "#7c3aed" emptyDB (by decide)⟩

/-- Claim C4 (code bug): the window structure is as claimed — on a
non-empty collection the series has exactly days + 1 consecutive calendar
days in ascending order, starting days before now (normalized) and ending
today — but every day's value is 0, never the number of entries on that
date: the tz-naive grouped counts are unmatched by the tz-aware window
labels and the reindex zero-fills the whole window. -/
theorem claim_C4 : ∀ now (df : List LogRow) days, df ≠ [] →
    weekly_counts now df days =
      (List.range (days + 1)).map (fun k : Nat =>
        ((⟨true, dateOf now - days + (k : Int)⟩ : Stamp), 0)) ∧
    (weekly_counts now df days).length = days + 1 ∧
    ((weekly_counts now df days).map (fun p => p.1.day)).Sorted (· < ·) := by
  intro now df days hne
  have heq := weekly_counts_zero now df days hne
  refine ⟨heq, ?_, ?_⟩
  · rw [heq]
    simp
  · rw [heq, List.map_map]
    have hpw : (List.range (days + 1)).Pairwise (· < ·) := List.pairwise_lt_range _
    refine List.Pairwise.map _ ?_ hpw
    intro a b hab
    simp only [Function.comp]
    omega

/-- Witness for C4 at the failing input of the claim: one entry logged
today inside a window of 1 day; the program still reports 0 for both days. -/
theorem claim_C4_witness :
    weekly_counts 0 [⟨1, 1, 0, none⟩] 1 =
      (List.range (1 + 1)).map (fun k : Nat =>
        ((⟨true, dateOf 0 - (1 : Nat) + (k : Int)⟩ : Stamp), 0)) ∧
    (weekly_counts 0 [⟨1, 1, 0, none⟩] 1).length = 1 + 1 ∧
    ((weekly_counts 0 [⟨1, 1, 0, none⟩] 1).map (fun p => p.1.day)).Sorted (· < ·) :=
  claim_C4 0 [⟨1, 1, 0, none⟩] 1 (by simp)

/-- Claim C6: creating a log entry with the timestamp omitted records the
current UTC time, and no existence check on the supplied habit_id is
performed: the insert succeeds (appends exactly one row) for every habit_id
and every database state, so orphaned habit references are possible. -/
theorem claim_C6 : ∀ now habit_id note (db : DB),
    add_log now habit_id none note db =
      (⟨db.habits, db.habitsNextId,
        db.logs ++ [⟨db.logsNextId, habit_id, now, note⟩], db.logsNextId + 1⟩,
       db.logsNextId) ∧
    ∀ ts, ((add_log now habit_id ts note db).1).logs =
      db.logs ++ [⟨db.logsNextId, habit_id, ts.getD now, note⟩] := by
  intro now habit_id note db
  exact ⟨rfl, fun ts => rfl⟩

/-- Claim C7: get_habits returns the habits table in non-increasing id order
(most recently created first), and get_logs returns the log rows left-joined
against habits for the owner name in non-increasing timestamp order; each is
a permutation of the underlying (joined) table. -/
theorem claim_C7 : ∀ db : DB,
    (get_habits db).Sorted (fun a b => b.id ≤ a.id) ∧
    (get_habits db).Perm db.habits ∧
    (get_logs db).Sorted (fun a b => b.ts ≤ a.ts) ∧
    (get_logs db).Perm (db.logs.map (joinLog db)) := by
  intro db
  exact ⟨List.sorted_insertionSort habitGE db.habits,
         List.perm_insertionSort habitGE db.habits,
         List.sorted_insertionSort logGE (db.logs.map (joinLog db)),
         List.perm_insertionSort logGE (db.logs.map (joinLog db))⟩

/-- Claim C9: both aggregators are total functions of their inputs (they are
plain Lean functions, defined on every entry collection and parameter), the
empty collection is handled (empty series, (0, 0) streaks), and whenever the
habit-filtered set of distinct dates is empty the streak computation returns
(0, 0). -/
theorem claim_C9 : ∀ now (df : List LogRow) days habit_id,
    (df = [] → weekly_counts now df days = [] ∧ calc_streaks df habit_id = (0, 0)) ∧
    (distinctDates (filterHabit df habit_id) = [] → calc_streaks df habit_id = (0, 0)) := by
  intro now df days habit_id
  constructor
  · rintro rfl
    exact ⟨by simp [weekly_counts], by simp [calc_streaks]⟩
  · intro h
    by_cases hemp : df.isEmpty
    · simp [calc_streaks, hemp]
    · simp [calc_streaks, hemp, h]

/-- Witness for C9 at concrete inputs: the empty collection. -/
theorem claim_C9_witness :
    (weekly_counts 0 [] 3 = [] ∧ calc_streaks [] none = (0, 0)) ∧
    calc_streaks [] (some 2) = (0, 0) :=
  ⟨(claim_C9 0 [] 3 none).1 rfl, ((claim_C9 0 [] 3 (some 2)).2 (by decide))⟩

/-- Claim C8: for every habit name that is non-empty after trimming,
creation succeeds, the inserted row carries the current UTC time as its
creation timestamp, and the returned identity appears exactly once among the
ids listed by a subsequent get_habits. -/
theorem claim_C8 : ∀ now name category target color (db : DB),
    habitsWF db → pyStrip name ≠ "" →
    ∃ dbp newId,
      form_habit_submit now name category target color db = (dbp, Except.ok newId) ∧
      (∃ hr ∈ dbp.habits, hr.id = newId ∧ hr.created_at = now ∧ hr.name = pyStrip name) ∧
      ((get_habits dbp).map (fun hr => hr.id)).count newId = 1 := by
  intro now name category target color db hwf hname
  refine ⟨⟨db.habits ++ [⟨db.habitsNextId, pyStrip name, pyStrip category, target, color, now⟩],
          db.habitsNextId + 1, db.logs, db.logsNextId⟩, db.habitsNextId, ?_, ?_, ?_⟩
  · simp [form_habit_submit, hname, add_habit]
  · exact ⟨⟨db.habitsNextId, pyStrip name, pyStrip category, target, color, now⟩,
      by simp, rfl, rfl, rfl⟩
  · have hperm : ∀ dbh : List HabitRow,
        ((dbh.insertionSort habitGE).map (fun hr => hr.id)).count db.habitsNextId =
        ((dbh.map (fun hr => hr.id)).count db.habitsNextId) := by
      intro dbh
      exact ((List.perm_insertionSort habitGE dbh).map (fun hr => hr.id)).count_eq _
    rw [get_habits]
    rw [hperm]
    rw [List.map_append, List.count_append]
    have h0 : ((db.habits.map (fun hr => hr.id)).count db.habitsNextId) = 0 := by
      rw [List.count_eq_zero]
      intro hmem
      obtain ⟨hr, hmemh, hid⟩ := List.mem_map.mp hmem
      have := hwf hr hmemh
      omega
    rw [h0]
    simp

/-- Witness for C8 at a concrete input: creating habit "a" in the fresh
database. -/
theorem claim_C8_witness :
    habitsWF emptyDB ∧ pyStrip "a" ≠ "" ∧
    (∃ dbp newId,
      form_habit_submit 0 "a" "" 1 "#7c3aed" emptyDB = (dbp, Except.ok newId) ∧
      (∃ hr ∈ dbp.habits, hr.id = newId ∧ hr.created_at = 0 ∧ hr.name = pyStrip "a") ∧
      ((get_habits dbp).map (fun hr => hr.id)).count newId = 1) :=
  ⟨fun hr hmem => by simp [emptyDB] at hmem, by decide,
   claim_C8 0 "a" "" 1 "#7c3aed" emptyDB (fun hr hmem => by simp [emptyDB] at hmem) (by decide)⟩

/-- Claim C1: for every non-empty collection whose (optionally habit
filtered) date list is non-empty with maximum m, the current streak is the
length of the consecutive-day run ending at m counted backward to the first
missing day: every day it spans is present and the day just before the run
is absent. It is not anchored to today — calc_streaks takes no clock input
(the source variable `today` is dead code). In particular, on logs for
exactly the days Jan 1, Jan 2 and Jan 4 it returns current = 1, best = 2. -/
theorem claim_C1 :
    (∀ (df : List LogRow) habit_id m, df ≠ [] →
      (distinctDates (filterHabit df habit_id)).max? = some m →
      1 ≤ (calc_streaks df habit_id).1 ∧
      (∀ i : Nat, i < (calc_streaks df habit_id).1 →
        m - (i : Int) ∈ distinctDates (filterHabit df habit_id)) ∧
      m - ((calc_streaks df habit_id).1 : Int) ∉ distinctDates (filterHabit df habit_id)) ∧
    calc_streaks exampleLogs none = (1, 2) := by
  constructor
  · intro df habit_id m hne hmax
    have hcur : (calc_streaks df habit_id).1 =
        backCount (distinctDates (filterHabit df habit_id)) m := by
      rw [calc_streaks_eq hne hmax]
    obtain ⟨hA, hB⟩ := backCount_spec (distinctDates (filterHabit df habit_id)) m
    have hmem : m ∈ distinctDates (filterHabit df habit_id) :=
      (int_max_eq_some_iff.mp hmax).1
    refine ⟨?_, ?_, ?_⟩
    · rw [hcur]
      exact backCount_pos _ _ hmem
    · intro i hi
      rw [hcur] at hi
      exact hA i hi
    · rw [hcur]
      exact hB
  · decide

/-- Witness for C1 at the spec example: days 0, 1, 3 with maximum 3; the
current streak is 1, day 3 is present and day 2 (just before the run) is
absent. -/
theorem claim_C1_witness :
    1 ≤ (calc_streaks exampleLogs none).1 ∧
    (3 : Int) - ((0 : Nat) : Int) ∈ distinctDates (filterHabit exampleLogs none) ∧
    (3 : Int) - (((calc_streaks exampleLogs none).1 : Nat) : Int) ∉
      distinctDates (filterHabit exampleLogs none) := by
  obtain ⟨h1, h2, h3⟩ := claim_C1.1 exampleLogs none 3 (by decide) (by decide)
  exact ⟨h1, h2 0 h1, h3⟩

/-- Claim C5: for every N ≥ 1, any non-empty collection whose filtered
distinct-date list is exactly N consecutive calendar days yields streaks
(N, N): the forward walk (reset to 1 at a gap, increment on a consecutive
day, best = running maximum) reaches N, and the backward run from the
maximum also spans all N days. -/
theorem claim_C5 : ∀ (N : Nat) (start : Int) (df : List LogRow) habit_id,
    1 ≤ N → df ≠ [] →
    distinctDates (filterHabit df habit_id) =
      (List.range N).map (fun i : Nat => start + (i : Int)) →
    calc_streaks df habit_id = (N, N) := by
  intro N start df habit_id hN hne hdays
  obtain ⟨n, rfl⟩ : ∃ n, N = n + 1 := ⟨N - 1, by omega⟩
  have hLdecomp : (List.range (n + 1)).map (fun i : Nat => start + (i : Int)) =
      ((List.range n).map (fun i : Nat => start + (i : Int))) ++ [start + (n : Int)] := by
    rw [List.range_succ, List.map_append]
    rfl
  have hmax : (distinctDates (filterHabit df habit_id)).max? = some (start + (n : Int)) := by
    rw [int_max_eq_some_iff]
    constructor
    · rw [hdays]
      exact List.mem_map.mpr ⟨n, List.mem_range.mpr (by omega), rfl⟩
    · intro b hb
      rw [hdays] at hb
      obtain ⟨i, hi, rfl⟩ := List.mem_map.mp hb
      have := List.mem_range.mp hi
      omega
  -- characterization of the run of length n + 1 ending at start + n
  have hAN : ∀ i : Nat, i < n + 1 →
      (start + (n : Int)) - (i : Int) ∈ distinctDates (filterHabit df habit_id) := by
    intro i hi
    rw [hdays]
    refine List.mem_map.mpr ⟨n - i, List.mem_range.mpr (by omega), ?_⟩
    omega
  have hBN : (start + (n : Int)) - ((n + 1 : Nat) : Int) ∉
      distinctDates (filterHabit df habit_id) := by
    intro hx
    rw [hdays] at hx
    obtain ⟨i, hi, heq⟩ := List.mem_map.mp hx
    have := List.mem_range.mp hi
    omega
  -- current streak
  obtain ⟨hA, hB⟩ := backCount_spec (distinctDates (filterHabit df habit_id)) (start + (n : Int))
  have hcur : backCount (distinctDates (filterHabit df habit_id)) (start + (n : Int)) = n + 1 :=
    firstGap_unique _ _ _ _ hA hB hAN hBN
  -- best streak via the forward walk
  have hsorted : (distinctDates (filterHabit df habit_id)).Sorted (· < ·) :=
    distinctDates_sorted_lt _
  have hsorted2 : (((List.range n).map (fun i : Nat => start + (i : Int))) ++
      [start + (n : Int)]).Sorted (· < ·) := by
    rw [← hLdecomp, ← hdays]
    exact hsorted
  obtain ⟨s, b, hfold, hs1, hsb, hmemf, hgapf⟩ :=
    fold_run ((List.range n).map (fun i : Nat => start + (i : Int))) (start + (n : Int)) hsorted2
  have hseq : s = n + 1 := by
    refine firstGap_unique (distinctDates (filterHabit df habit_id)) (start + (n : Int))
      s (n + 1) ?_ ?_ hAN hBN
    · intro i hi
      rw [hdays, hLdecomp]
      exact hmemf i hi
    · rw [hdays, hLdecomp]
      exact hgapf
  have hblen : b ≤ n + 1 := by
    have hb1 : bestStreak (distinctDates (filterHabit df habit_id)) = b := by
      rw [bestStreak, hdays, hLdecomp, hfold]
    have hb2 := bestStreak_le (distinctDates (filterHabit df habit_id))
    rw [hb1, hdays] at hb2
    simpa using hb2
  have hbeq : b = n + 1 := by omega
  have hbest : bestStreak (distinctDates (filterHabit df habit_id)) = n + 1 := by
    rw [bestStreak, hdays, hLdecomp, hfold, hbeq]
  rw [calc_streaks_eq hne hmax, hcur, hbest]

/-- Witness for C5 at a concrete input: three entries on days 0, 1, 2. -/
theorem claim_C5_witness : calc_streaks consecLogs none = (3, 3) :=
  claim_C5 3 0 consecLogs none (by decide) (by decide) (by decide)

/-- Claim C10: whenever the habit-filtered set of distinct dates is
non-empty, the streaks satisfy 1 ≤ current ≤ best: the maximum date itself
is present (so current ≥ 1), and the run ending at the maximum date is one
of the runs the forward walk maximizes over (so best ≥ current). -/
theorem claim_C10 : ∀ (df : List LogRow) habit_id, df ≠ [] →
    distinctDates (filterHabit df habit_id) ≠ [] →
    1 ≤ (calc_streaks df habit_id).1 ∧
    (calc_streaks df habit_id).1 ≤ (calc_streaks df habit_id).2 := by
  intro df habit_id hne hdne
  obtain ⟨m, hmax⟩ : ∃ m, (distinctDates (filterHabit df habit_id)).max? = some m := by
    cases h : (distinctDates (filterHabit df habit_id)).max? with
    | none => exact absurd (List.max?_eq_none_iff.mp h) hdne
    | some m => exact ⟨m, rfl⟩
  have hsorted : (distinctDates (filterHabit df habit_id)).Sorted (· < ·) :=
    distinctDates_sorted_lt _
  obtain ⟨l0, hl0⟩ := sorted_max_decomp hsorted hmax
  obtain ⟨s, b, hfold, hs1, hsb, hmemf, hgapf⟩ := fold_run l0 m (hl0 ▸ hsorted)
  obtain ⟨hA, hB⟩ := backCount_spec (distinctDates (filterHabit df habit_id)) m
  have hseq : backCount (distinctDates (filterHabit df habit_id)) m = s := by
    refine firstGap_unique _ m _ _ hA hB ?_ ?_
    · intro i hi
      rw [hl0]
      exact hmemf i hi
    · rw [hl0]
      exact hgapf
  have hbest : bestStreak (distinctDates (filterHabit df habit_id)) = b := by
    rw [bestStreak, hl0, hfold]
  rw [calc_streaks_eq hne hmax]
  constructor
  · simpa [hseq] using hs1
  · simpa [hseq, hbest] using hsb

/-- Witness for C10 at a concrete input: the spec example logs. -/
theorem claim_C10_witness :
    1 ≤ (calc_streaks exampleLogs none).1 ∧
    (calc_streaks exampleLogs none).1 ≤ (calc_streaks exampleLogs none).2 :=
  claim_C10 exampleLogs none (by decide) (by decide)

end BLINK
